import Mathlib

/-!
Shallow embedding of the Vulkan texture cache of
`src/core/rend/vulkan/texture.h`: the `Texture` object (GPU image, views,
allocation, staging buffer), the `SamplerManager` memoization map, and the
`TextureCache` ring of per-slot in-flight sets and trash bins
(`SetCurrentIndex`, `IsInFlight`, `SetInFlight`, `DestroyLater`, `Clear`,
`EmptyTrash`).

Vulkan handles are modelled as natural numbers; a nullable handle is an
`Option Nat` (`none` = null handle).  `vk::Format` is a `Nat` with
`0 = vk::Format::eUndefined`.  Texture objects live in a heap
(`List Texture`) indexed by `TexId`; the C++ containers
(`std::vector`, `std::unordered_set`, `std::map`) become lists, with
`std::unordered_set` insertion modelled as membership-checked cons and the
`std::map` as an association list ordered by insertion.  C++ `operator[]`
indexing of a `std::vector` out of range is undefined behaviour; operations
that index without a bounds check (`SetInFlight`, `DestroyLater`) therefore
return `Option` and yield `none` exactly on the out-of-range access.
-/

namespace MorpheusCast

/-- Model of `class Texture` (texture.h:36-93): GPU image handle, views,
allocation, staging buffer, format/extent/mip metadata.  Default field
values are the C++ member initializers (`format = eUndefined`,
`mipmapLevels = 1`, all handles null). -/
structure Texture where
  format : Nat := 0
  width : Nat := 0
  height : Nat := 0
  mipmapLevels : Nat := 1
  image : Option Nat := none
  imageView : Option Nat := none
  readOnlyImageView : Option Nat := none
  allocation : Option Nat := none
  stagingBufferData : Option Nat := none
  deriving DecidableEq

/-- `Texture::GetReadOnlyImageView` (texture.h:63):
`readOnlyImageView ? readOnlyImageView : *imageView`. -/
def Texture.GetReadOnlyImageView (tex : Texture) : Option Nat :=
  match tex.readOnlyImageView with
  | some v => some v
  | none => tex.imageView

/-- Identity of a heap-allocated `Texture*`. -/
abbrev TexId := Nat

/-- Model of `class TextureCache` (texture.h:173-254) together with the
heap of `Texture` objects its pointers refer to.  `entries` stands for the
descriptor-to-object map of the base class `BaseTextureCache<Texture>`
(declared in `rend/TexCache.h`, not under `src/`), modelled from the spec
as an association list descriptor-key → object. -/
structure TextureCache where
  textures : List Texture := []
  entries : List (Nat × TexId) := []
  inFlightTextures : List (List TexId) := []
  trashedImageViews : List (List (Option Nat)) := []
  trashedImages : List (List Nat) := []
  trashedMem : List (List (Option Nat)) := []
  trashedBuffers : List (List (Option Nat)) := []
  currentIndex : Nat := 0
  deriving DecidableEq

/-- `std::unordered_set<Texture*>::insert`: adds the element unless already
present. -/
def insertTex (l : List TexId) (t : TexId) : List TexId :=
  if t ∈ l then l else t :: l

/-- `TextureCache::EmptyTrash` (texture.h:241-247): grow the vector to
cover `idx` if needed (`resize` value-initializes the new inner
containers), then clear the inner container at `idx`. -/
def emptyTrash {α : Type} (v : List (List α)) (idx : Nat) : List (List α) :=
  let v' := if v.length < idx + 1 then v ++ List.replicate (idx + 1 - v.length) [] else v
  v'.set idx []

/-- The per-texture effect of the lambda in `SetCurrentIndex`
(texture.h:182): `texture->readOnlyImageView = vk::ImageView();` applied to
every texture in the given in-flight set. -/
def clearReadOnlyViews (heap : List Texture) (ids : List TexId) : List Texture :=
  ids.foldl (fun h t => h.set t { h.getD t {} with readOnlyImageView := none }) heap

/-- `TextureCache::SetCurrentIndex` (texture.h:179-189): (1) if the slot
being vacated exists, null the read-only alias view of every texture in
its in-flight set; (2) move `currentIndex`; (3) `EmptyTrash` each of the
five per-slot containers at the new index (which clears the new slot's
in-flight set and trash bins, growing the vectors as needed). -/
def TextureCache.SetCurrentIndex (s : TextureCache) (index : Nat) : TextureCache :=
  let heap :=
    if s.currentIndex < s.inFlightTextures.length then
      clearReadOnlyViews s.textures (s.inFlightTextures.getD s.currentIndex [])
    else s.textures
  { s with
    textures := heap
    currentIndex := index
    inFlightTextures := emptyTrash s.inFlightTextures index
    trashedImageViews := emptyTrash s.trashedImageViews index
    trashedImages := emptyTrash s.trashedImages index
    trashedMem := emptyTrash s.trashedMem index
    trashedBuffers := emptyTrash s.trashedBuffers index }

/-- `TextureCache::IsInFlight` (texture.h:191-197): scan every slot `i`,
returning true on the first `i ≠ currentIndex` whose in-flight set
contains the texture. -/
def TextureCache.IsInFlight (s : TextureCache) (t : TexId) : Bool :=
  (List.range s.inFlightTextures.length).any
    (fun i => i != s.currentIndex && (s.inFlightTextures.getD i []).contains t)

/-- `TextureCache::SetInFlight` (texture.h:199-202):
`inFlightTextures[currentIndex].insert(texture)` — unchecked vector
indexing, so `none` when `currentIndex` is out of range. -/
def TextureCache.SetInFlight (s : TextureCache) (t : TexId) : Option TextureCache :=
  if s.currentIndex < s.inFlightTextures.length then
    let newSet := insertTex (s.inFlightTextures.getD s.currentIndex []) t
    some { s with inFlightTextures := s.inFlightTextures.set s.currentIndex newSet }
  else none

/-- The texture fields left behind by a successful `DestroyLater`
(texture.h:208-212): the moved-from owning handles are null and the format
is `eUndefined`; the non-owning `readOnlyImageView` and the extent
metadata are not touched. -/
def trashedTexture (tex : Texture) : Texture :=
  { tex with image := none, imageView := none, allocation := none,
             stagingBufferData := none, format := 0 }

/-- `TextureCache::DestroyLater` (texture.h:204-213): early-return if the
texture's image handle is null; otherwise push the moved image, image
view, allocation and staging buffer into the current slot's trash bins
(unchecked indexing on all four vectors, hence `none` when out of range),
leaving the moved-from fields null, and set the format to
`eUndefined`.  The non-owning `readOnlyImageView` is not touched. -/
def TextureCache.DestroyLater (s : TextureCache) (t : TexId) : Option TextureCache :=
  let tex := s.textures.getD t {}
  if tex.image = none then some s
  else
    if s.currentIndex < s.trashedImages.length ∧
       s.currentIndex < s.trashedImageViews.length ∧
       s.currentIndex < s.trashedMem.length ∧
       s.currentIndex < s.trashedBuffers.length then
      some { s with
        trashedImages := s.trashedImages.set s.currentIndex
          (s.trashedImages.getD s.currentIndex [] ++ [tex.image.getD 0])
        trashedImageViews := s.trashedImageViews.set s.currentIndex
          (s.trashedImageViews.getD s.currentIndex [] ++ [tex.imageView])
        trashedMem := s.trashedMem.set s.currentIndex
          (s.trashedMem.getD s.currentIndex [] ++ [tex.allocation])
        trashedBuffers := s.trashedBuffers.set s.currentIndex
          (s.trashedBuffers.getD s.currentIndex [] ++ [tex.stagingBufferData])
        textures := s.textures.set t (trashedTexture tex) }
    else none

/-- `TextureCache::Clear` (texture.h:217-230): `BaseTextureCache::Clear()`
(modelled from the spec: it drops every cache entry; its body is in
`rend/TexCache.h`, not under `src/`), then clear every in-flight set and
every trash bin in place — inner containers are emptied, outer vector
lengths are unchanged, and `currentIndex` is not reset. -/
def TextureCache.Clear (s : TextureCache) : TextureCache :=
  { s with
    entries := []
    inFlightTextures := s.inFlightTextures.map (fun _ => [])
    trashedImageViews := s.trashedImageViews.map (fun _ => [])
    trashedImages := s.trashedImages.map (fun _ => [])
    trashedMem := s.trashedMem.map (fun _ => [])
    trashedBuffers := s.trashedBuffers.map (fun _ => []) }

/-- Modelled from the spec: the body of `TextureCache::Cleanup`
(declared texture.h:215) is not under `src/`.  Per the spec's §4.3, the
periodic eviction pass scans entries for stale objects (the policy is
external, passed here as the list of stale object ids) and routes each of
them through `destroyLater`. -/
def TextureCache.Cleanup (s : TextureCache) (stale : List TexId) : Option TextureCache :=
  stale.foldl (fun acc t => acc.bind (fun st => st.DestroyLater t)) (some s)

/-- `SamplerManager::TSP_Mask` (texture.h:138): the filter-relevant bits of
a TSP word — MipMapD, FilterMode, ClampU, ClampV, FlipU, FlipV. -/
def TSP_Mask : Nat := 0x7ef00

/-- Model of `class SamplerManager` (texture.h:95-142): the
`std::map<u32, vk::UniqueSampler>` keyed by the masked TSP bits, plus a
source of fresh sampler handles standing for
`device.createSamplerUnique(...)` (the created sampler's filter/address
configuration does not affect handle identity, which is all the cache
observes). -/
structure SamplerManager where
  samplers : List (Nat × Nat) := []
  nextHandle : Nat := 0
  deriving DecidableEq

/-- `SamplerManager::GetSampler` (texture.h:102-137): hash the TSP word
with `TSP_Mask`; return the memoized handle if present, else create a
fresh sampler, memoize it under the hash and return it. -/
def SamplerManager.GetSampler (sm : SamplerManager) (tspFull : Nat) : Nat × SamplerManager :=
  let samplerHash := tspFull &&& TSP_Mask
  match sm.samplers.find? (fun p => p.1 == samplerHash) with
  | some p => (p.2, sm)
  | none =>
    (sm.nextHandle,
     { samplers := sm.samplers ++ [(samplerHash, sm.nextHandle)],
       nextHandle := sm.nextHandle + 1 })

/-- `SamplerManager::term` (texture.h:98-100): release every memoized
sampler. -/
def SamplerManager.term (sm : SamplerManager) : SamplerManager :=
  { sm with samplers := [] }

/-- Modelled from the spec: the body of `Texture::UploadToGPU` (declared
texture.h:58) is not under `src/`.  Per spec §4.1 and the §3 lifecycle: if
a GPU image exists with the same extent and format, reuse it (no
reallocation, no trashing — the pixel copy itself is not modelled);
otherwise move any old sub-resources into the current slot's trash (as
`DestroyLater` does) and allocate a new image with
`mipmapRequested ? log2(max(width,height))+1 : 1` levels.  Fresh handles
for the new image/view/allocation are passed in. -/
def TextureCache.UploadToGPU (s : TextureCache) (t : TexId) (width height fmt : Nat)
    (mipmapRequested : Bool) (freshImage freshView freshAlloc : Nat) : Option TextureCache :=
  let tex := s.textures.getD t {}
  if tex.image ≠ none ∧ tex.width = width ∧ tex.height = height ∧ tex.format = fmt then
    some s
  else
    let levels := if mipmapRequested then Nat.log2 (max width height) + 1 else 1
    let newTex : Texture :=
      { format := fmt, width := width, height := height, mipmapLevels := levels,
        image := some freshImage, imageView := some freshView,
        allocation := some freshAlloc }
    (s.DestroyLater t).map (fun s1 => { s1 with textures := s1.textures.set t newTex })

/-- The five per-slot container lengths of the cache, in declaration order
(texture.h:248-252). -/
def binLengths (s : TextureCache) : List Nat :=
  [s.inFlightTextures.length, s.trashedImageViews.length, s.trashedImages.length,
   s.trashedMem.length, s.trashedBuffers.length]

/-- Slot `n` is covered by every per-slot container. -/
def coversSlot (s : TextureCache) (n : Nat) : Prop :=
  n < s.inFlightTextures.length ∧ n < s.trashedImageViews.length ∧
  n < s.trashedImages.length ∧ n < s.trashedMem.length ∧ n < s.trashedBuffers.length

/-- One step of a renderer cycling through the ring of depth `R`:
`SetCurrentIndex((currentIndex + 1) % R)`. -/
def cycleStep (R : Nat) (s : TextureCache) : TextureCache :=
  s.SetCurrentIndex ((s.currentIndex + 1) % R)

/-- `n` cycling slot changes of ring depth `R`. -/
def cycleSteps (R : Nat) : Nat → TextureCache → TextureCache
  | 0, s => s
  | n + 1, s => cycleSteps R n (cycleStep R s)

/-- A sequence of `GetSampler` calls, keeping only the final manager
state. -/
def runGets (sm : SamplerManager) (tsps : List Nat) : SamplerManager :=
  tsps.foldl (fun s t => (s.GetSampler t).2) sm

/-- A texture whose GPU sub-resources are all live. -/
def texLive : Texture :=
  { format := 1, width := 8, height := 8, mipmapLevels := 1, image := some 10,
    imageView := some 11, readOnlyImageView := some 12, allocation := some 13,
    stagingBufferData := some 14 }

/-- A cache holding `texLive` at id 0, after `SetCurrentIndex 0` has sized
every per-slot container for slot 0. -/
def liveCache : TextureCache :=
  TextureCache.SetCurrentIndex { textures := [texLive], entries := [(42, 0)] } 0

/-- The state of `liveCache` after `DestroyLater` on texture 0. -/
def liveCacheTrashed : TextureCache :=
  (liveCache.DestroyLater 0).getD {}

/-- A cache whose texture 0 has a read-only alias view and is marked
in-flight only in slot 0, which is also the current slot. -/
def cexCache : TextureCache :=
  { textures := [texLive], inFlightTextures := [[0]], currentIndex := 0 }

/-- The state of `liveCache` after an upload of texture 0 with a changed
extent (16×8 instead of 8×8), no mipmaps requested. -/
def upDiff : TextureCache :=
  (liveCache.UploadToGPU 0 16 8 1 false 20 21 22).getD {}

/-! ### Container lemmas -/

theorem getD_set_self {α : Type} (l : List α) (i : Nat) (a d : α) (h : i < l.length) :
    (l.set i a).getD i d = a := by
  rw [List.getD_eq_getElem _ _ (by simpa using h)]
  simp [List.getElem_set_self]

theorem getD_set_ne {α : Type} (l : List α) (i j : Nat) (a d : α) (h : i ≠ j) :
    (l.set i a).getD j d = l.getD j d := by
  simp [List.getD, List.getElem?_set_ne h]

theorem getD_map_nil {α β : Type} (l : List (List α)) (i : Nat) :
    (l.map (fun _ => ([] : List β))).getD i [] = [] := by
  rcases Nat.lt_or_ge i l.length with h | h
  · rw [List.getD_eq_getElem _ _ (by simpa using h)]
    simp
  · rw [List.getD_eq_default _ _ (by simpa using h)]

theorem getD_append_replicate_nil {α : Type} (v : List (List α)) (m k : Nat) :
    (v ++ List.replicate m ([] : List α)).getD k [] = v.getD k [] := by
  by_cases hk : k < v.length
  · exact List.getD_append _ _ _ _ hk
  · rw [List.getD_append_right _ _ _ _ (by omega), List.getD_eq_default v _ (by omega)]
    rcases Nat.lt_or_ge (k - v.length) m with h | h
    · rw [List.getD_eq_getElem _ _ (by simpa using h)]
      simp
    · rw [List.getD_eq_default _ _ (by simpa using h)]

theorem length_emptyTrash {α : Type} (v : List (List α)) (idx : Nat) :
    (emptyTrash v idx).length = max v.length (idx + 1) := by
  unfold emptyTrash
  by_cases h : v.length < idx + 1 <;> simp [h] <;> omega

theorem getD_emptyTrash_self {α : Type} (v : List (List α)) (idx : Nat) :
    (emptyTrash v idx).getD idx [] = [] := by
  unfold emptyTrash
  apply getD_set_self
  by_cases h : v.length < idx + 1 <;> simp [h] <;> omega

theorem getD_emptyTrash_ne {α : Type} (v : List (List α)) (idx k : Nat) (h : k ≠ idx) :
    (emptyTrash v idx).getD k [] = v.getD k [] := by
  unfold emptyTrash
  rw [getD_set_ne _ _ _ _ _ (Ne.symm h)]
  by_cases hg : v.length < idx + 1
  · simp only [if_pos hg]
    exact getD_append_replicate_nil v _ k
  · simp [hg]

/-! ### IsInFlight characterization -/

/-- `IsInFlight` returns true exactly when some slot other than the
current one has the texture in its in-flight set. -/
theorem isInFlight_eq_true (s : TextureCache) (t : TexId) :
    s.IsInFlight t = true ↔
      ∃ i, i < s.inFlightTextures.length ∧ i ≠ s.currentIndex ∧
        t ∈ s.inFlightTextures.getD i [] := by
  unfold TextureCache.IsInFlight
  simp [List.any_eq_true, List.mem_range, and_assoc]

/-! ### Claim theorems -/

/-- C6: `IsInFlight(obj)` is true iff `obj` belongs to the in-flight set of
at least one slot whose index differs from the current slot index;
membership in the current slot's set alone yields false. -/
theorem isInFlight_iff_other_slot (s : TextureCache) (t : TexId) :
    (s.IsInFlight t = true ↔
      ∃ i, i < s.inFlightTextures.length ∧ i ≠ s.currentIndex ∧
        t ∈ s.inFlightTextures.getD i []) ∧
    ((∀ i, i < s.inFlightTextures.length → i ≠ s.currentIndex →
        t ∉ s.inFlightTextures.getD i []) → s.IsInFlight t = false) := by
  refine ⟨isInFlight_eq_true s t, fun h => ?_⟩
  rw [Bool.eq_false_iff]
  intro hcon
  obtain ⟨i, hi, hne, hmem⟩ := (isInFlight_eq_true s t).mp hcon
  exact h i hi hne hmem

/-- C5: `Clear` synchronously empties every cache entry, every per-slot
in-flight set and every trash bin, without the ring/epoch gate; in
particular `IsInFlight` is false for every object immediately after. -/
theorem clear_drops_everything (s : TextureCache) (t : TexId) :
    s.Clear.entries = [] ∧
    (∀ i, s.Clear.inFlightTextures.getD i [] = []) ∧
    (∀ i, s.Clear.trashedImageViews.getD i [] = []) ∧
    (∀ i, s.Clear.trashedImages.getD i [] = []) ∧
    (∀ i, s.Clear.trashedMem.getD i [] = []) ∧
    (∀ i, s.Clear.trashedBuffers.getD i [] = []) ∧
    s.Clear.IsInFlight t = false := by
  refine ⟨rfl, fun i => getD_map_nil _ _, fun i => getD_map_nil _ _, fun i => getD_map_nil _ _,
    fun i => getD_map_nil _ _, fun i => getD_map_nil _ _, ?_⟩
  rw [Bool.eq_false_iff]
  intro hcon
  obtain ⟨i, _, _, hmem⟩ := (isInFlight_eq_true _ t).mp hcon
  rw [show s.Clear.inFlightTextures = s.inFlightTextures.map (fun _ => []) from rfl,
    getD_map_nil] at hmem
  exact (List.not_mem_nil t) hmem

/-- A texture id whose `getD` image is non-null is a valid heap index. -/
theorem texId_lt_of_image_some (s : TextureCache) (t : TexId)
    (h : (s.textures.getD t {}).image ≠ none) : t < s.textures.length := by
  rcases Nat.lt_or_ge t s.textures.length with hlt | hge
  · exact hlt
  · rw [List.getD_eq_default _ _ hge] at h
    exact absurd rfl h

/-- C4: `DestroyLater` is a no-op on an object whose image handle is null;
hence a second `DestroyLater` right after a first one changes neither the
object nor any trash bin, and trashing happens at most once. -/
theorem destroyLater_idempotent (s s' : TextureCache) (t : TexId)
    (h : s.DestroyLater t = some s') :
    s'.DestroyLater t = some s' ∧ ((s.textures.getD t {}).image = none → s' = s) := by
  by_cases himg : (s.textures.getD t {}).image = none
  · simp only [TextureCache.DestroyLater, himg, if_pos] at h
    obtain rfl := Option.some_inj.mp h
    exact ⟨by simp only [TextureCache.DestroyLater, himg, if_pos], fun _ => rfl⟩
  · have ht : t < s.textures.length := texId_lt_of_image_some s t himg
    simp only [TextureCache.DestroyLater, himg] at h
    rw [if_neg (by simp)] at h
    split at h
    · obtain rfl := Option.some_inj.mp h
      refine ⟨?_, fun hc => absurd hc himg⟩
      simp only [TextureCache.DestroyLater]
      rw [getD_set_self _ _ _ _ ht]
      simp [trashedTexture]
    · exact absurd h (by simp)

/-- C8: a successful `DestroyLater` leaves every per-slot in-flight set
unchanged and leaves the cache's descriptor-to-object map unchanged. -/
theorem destroyLater_preserves_inflight_and_entries (s s' : TextureCache) (t : TexId)
    (h : s.DestroyLater t = some s') :
    s'.inFlightTextures = s.inFlightTextures ∧ s'.entries = s.entries := by
  by_cases himg : (s.textures.getD t {}).image = none
  · simp only [TextureCache.DestroyLater, himg, if_pos] at h
    obtain rfl := Option.some_inj.mp h
    exact ⟨rfl, rfl⟩
  · simp only [TextureCache.DestroyLater, himg] at h
    rw [if_neg (by simp)] at h
    split at h
    · obtain rfl := Option.some_inj.mp h
      exact ⟨rfl, rfl⟩
    · exact absurd h (by simp)

/-- Witness for C6 at a concrete cache: texture 0 is in-flight only in the
current slot, so `IsInFlight` is false. -/
theorem isInFlight_iff_other_slot_witness :
    cexCache.IsInFlight 0 = false :=
  (isInFlight_iff_other_slot cexCache 0).2 (by decide)

/-- Witness for C4 at a concrete cache with a live texture. -/
theorem destroyLater_idempotent_witness :
    liveCacheTrashed.DestroyLater 0 = some liveCacheTrashed ∧
    ((liveCache.textures.getD 0 {}).image = none → liveCacheTrashed = liveCache) :=
  destroyLater_idempotent liveCache liveCacheTrashed 0 (by decide)

/-- Witness for C8 at a concrete cache with a live texture. -/
theorem destroyLater_preserves_witness :
    liveCacheTrashed.inFlightTextures = liveCache.inFlightTextures ∧
    liveCacheTrashed.entries = liveCache.entries :=
  destroyLater_preserves_inflight_and_entries liveCache liveCacheTrashed 0 (by decide)

/-! ### Sampler memoization -/

/-- When the hash is already memoized, `GetSampler` returns the memoized
handle and leaves the manager unchanged. -/
theorem getSampler_of_found (sm : SamplerManager) (tsp : Nat) (pr : Nat × Nat)
    (h : sm.samplers.find? (fun p => p.1 == tsp &&& TSP_Mask) = some pr) :
    sm.GetSampler tsp = (pr.2, sm) := by
  simp [SamplerManager.GetSampler, h]

/-- An existing memoized entry survives any further `GetSampler` call: the
map only ever gains entries, appended after the existing ones. -/
theorem find?_getSampler_preserved (sm : SamplerManager) (tsp k : Nat) (pr : Nat × Nat)
    (h : sm.samplers.find? (fun p => p.1 == k) = some pr) :
    (sm.GetSampler tsp).2.samplers.find? (fun p => p.1 == k) = some pr := by
  cases hf : sm.samplers.find? (fun p => p.1 == tsp &&& TSP_Mask) with
  | some q => simp [SamplerManager.GetSampler, hf, h]
  | none => simp [SamplerManager.GetSampler, hf, List.find?_append, h]

/-- Memoized entries survive any sequence of `GetSampler` calls. -/
theorem find?_runGets_preserved (tsps : List Nat) :
    ∀ (sm : SamplerManager) (k : Nat) (pr : Nat × Nat),
      sm.samplers.find? (fun p => p.1 == k) = some pr →
      (runGets sm tsps).samplers.find? (fun p => p.1 == k) = some pr := by
  induction tsps with
  | nil => intro sm k pr h; exact h
  | cons a rest ih =>
    intro sm k pr h
    exact ih _ k pr (find?_getSampler_preserved sm a k pr h)

/-- After a `GetSampler` call its hash is memoized, mapped to the handle
that call returned. -/
theorem getSampler_memoizes (sm : SamplerManager) (tsp : Nat) :
    ∃ pr : Nat × Nat,
      (sm.GetSampler tsp).2.samplers.find? (fun p => p.1 == tsp &&& TSP_Mask) = some pr ∧
      pr.2 = (sm.GetSampler tsp).1 := by
  cases hf : sm.samplers.find? (fun p => p.1 == tsp &&& TSP_Mask) with
  | some q =>
    refine ⟨q, ?_, ?_⟩ <;> simp [SamplerManager.GetSampler, hf]
  | none =>
    refine ⟨(tsp &&& TSP_Mask, sm.nextHandle), ?_, ?_⟩ <;>
      simp [SamplerManager.GetSampler, hf, List.find?_append]

/-- C3: two TSP descriptors with equal filter-relevant bits
(`full & TSP_Mask`) resolve to the same memoized sampler handle, even
across any sequence of intervening `GetSampler` calls and even when bits
outside the mask differ; taking `tsp2 = tsp1` this is also the statement
that repeated calls with a fixed descriptor return the same handle for the
cache's lifetime. -/
theorem getSampler_memoized_masked (sm : SamplerManager) (tsp1 tsp2 : Nat) (others : List Nat)
    (h : tsp1 &&& TSP_Mask = tsp2 &&& TSP_Mask) :
    ((runGets (sm.GetSampler tsp1).2 others).GetSampler tsp2).1 = (sm.GetSampler tsp1).1 := by
  obtain ⟨pr, hfind, hval⟩ := getSampler_memoizes sm tsp1
  have hpres := find?_runGets_preserved others _ _ pr hfind
  rw [h] at hpres
  rw [getSampler_of_found _ tsp2 pr hpres]
  exact hval

/-- Witness for C3: tsp words 5 and 7 differ only outside `TSP_Mask`, with
an unrelated call in between. -/
theorem getSampler_memoized_masked_witness :
    ((runGets (SamplerManager.GetSampler {} 5).2 [256]).GetSampler 7).1 =
      (SamplerManager.GetSampler {} 5).1 :=
  getSampler_memoized_masked {} 5 7 [256] (by decide)

/-! ### Slot coverage and unchecked indexing -/

/-- `SetInFlight` succeeds exactly when the in-flight vector covers the
current slot. -/
theorem setInFlight_isSome_iff (s : TextureCache) (t : TexId) :
    (s.SetInFlight t).isSome ↔ s.currentIndex < s.inFlightTextures.length := by
  unfold TextureCache.SetInFlight
  by_cases hc : s.currentIndex < s.inFlightTextures.length <;> simp [hc]

/-- For a texture with a live image, `DestroyLater` succeeds exactly when
all four trash-bin vectors cover the current slot. -/
theorem destroyLater_isSome_iff (s : TextureCache) (t : TexId)
    (him : (s.textures.getD t {}).image ≠ none) :
    (s.DestroyLater t).isSome ↔
      (s.currentIndex < s.trashedImages.length ∧
       s.currentIndex < s.trashedImageViews.length ∧
       s.currentIndex < s.trashedMem.length ∧
       s.currentIndex < s.trashedBuffers.length) := by
  simp only [TextureCache.DestroyLater]
  rw [if_neg him]
  by_cases hc : (s.currentIndex < s.trashedImages.length ∧
       s.currentIndex < s.trashedImageViews.length ∧
       s.currentIndex < s.trashedMem.length ∧
       s.currentIndex < s.trashedBuffers.length)
  · rw [if_pos hc]
    simpa using hc
  · rw [if_neg hc]
    simpa using hc

/-- After `SetCurrentIndex i`, every per-slot container covers slot `i`. -/
theorem setCurrentIndex_covers (s : TextureCache) (i : Nat) :
    coversSlot (s.SetCurrentIndex i) i := by
  refine ⟨?_, ?_, ?_, ?_, ?_⟩ <;>
    · show i < (emptyTrash _ i).length
      rw [length_emptyTrash]
      omega

/-- `SetCurrentIndex` installs its argument as the current slot. -/
theorem setCurrentIndex_currentIndex (s : TextureCache) (i : Nat) :
    (s.SetCurrentIndex i).currentIndex = i := rfl

/-- C10: `SetInFlight` and `DestroyLater` index the per-slot containers at
the current slot with no bounds check: they succeed exactly when the
containers already cover the current slot, which a preceding
`SetCurrentIndex` guarantees; on a freshly constructed cache (current slot
0, all containers empty) the access is out of range. -/
theorem unchecked_slot_indexing (s : TextureCache) (t u : TexId) (i : Nat)
    (him : (s.textures.getD t {}).image ≠ none) :
    ((s.SetInFlight t).isSome ↔ s.currentIndex < s.inFlightTextures.length) ∧
    ((s.DestroyLater t).isSome ↔
      (s.currentIndex < s.trashedImages.length ∧
       s.currentIndex < s.trashedImageViews.length ∧
       s.currentIndex < s.trashedMem.length ∧
       s.currentIndex < s.trashedBuffers.length)) ∧
    ((s.SetCurrentIndex i).SetInFlight u).isSome ∧
    ((s.SetCurrentIndex i).DestroyLater u).isSome ∧
    ({} : TextureCache).SetInFlight t = none ∧
    TextureCache.DestroyLater { textures := s.textures } t = none := by
  obtain ⟨h1, h2, h3, h4, h5⟩ := setCurrentIndex_covers s i
  refine ⟨setInFlight_isSome_iff s t, destroyLater_isSome_iff s t him, ?_, ?_, ?_, ?_⟩
  · exact (setInFlight_isSome_iff _ u).mpr (by rw [setCurrentIndex_currentIndex]; exact h1)
  · by_cases hu : (((s.SetCurrentIndex i).textures).getD u {}).image = none
    · simp only [TextureCache.DestroyLater]
      rw [if_pos hu]
      simp
    · exact (destroyLater_isSome_iff _ u hu).mpr
        (by rw [setCurrentIndex_currentIndex]; exact ⟨h3, h2, h4, h5⟩)
  · rfl
  · simp only [TextureCache.DestroyLater]
    rw [if_neg him]
    simp

/-- Witness for C10 at a concrete cache with a live texture. -/
theorem unchecked_slot_indexing_witness :
    ((liveCache.SetInFlight 0).isSome ↔
      liveCache.currentIndex < liveCache.inFlightTextures.length) ∧
    ((liveCache.DestroyLater 0).isSome ↔
      (liveCache.currentIndex < liveCache.trashedImages.length ∧
       liveCache.currentIndex < liveCache.trashedImageViews.length ∧
       liveCache.currentIndex < liveCache.trashedMem.length ∧
       liveCache.currentIndex < liveCache.trashedBuffers.length)) ∧
    ((liveCache.SetCurrentIndex 3).SetInFlight 0).isSome ∧
    ((liveCache.SetCurrentIndex 3).DestroyLater 0).isSome ∧
    ({} : TextureCache).SetInFlight 0 = none ∧
    TextureCache.DestroyLater { textures := liveCache.textures } 0 = none :=
  unchecked_slot_indexing liveCache 0 0 3 (by decide)

/-! ### Length monotonicity -/

/-- A successful `SetInFlight` changes no container length. -/
theorem setInFlight_binLengths (s s' : TextureCache) (t : TexId)
    (h : s.SetInFlight t = some s') : binLengths s' = binLengths s := by
  unfold TextureCache.SetInFlight at h
  split at h
  · obtain rfl := Option.some_inj.mp h
    simp [binLengths]
  · exact absurd h (by simp)

/-- A successful `DestroyLater` changes no container length. -/
theorem destroyLater_binLengths (s s' : TextureCache) (t : TexId)
    (h : s.DestroyLater t = some s') : binLengths s' = binLengths s := by
  by_cases himg : (s.textures.getD t {}).image = none
  · simp only [TextureCache.DestroyLater, himg, if_pos] at h
    obtain rfl := Option.some_inj.mp h
    rfl
  · simp only [TextureCache.DestroyLater, himg] at h
    rw [if_neg (by simp)] at h
    split at h
    · obtain rfl := Option.some_inj.mp h
      simp [binLengths]
    · exact absurd h (by simp)

/-- Folding the trash-routing step over a dead accumulator stays dead. -/
theorem cleanup_foldl_none (stale : List TexId) :
    List.foldl (fun (acc : Option TextureCache) (t : TexId) =>
      acc.bind (fun st => st.DestroyLater t)) none stale = none := by
  induction stale with
  | nil => rfl
  | cons a rest ih => simpa using ih

/-- A successful `Cleanup` changes no container length. -/
theorem cleanup_binLengths (stale : List TexId) :
    ∀ s s' : TextureCache, s.Cleanup stale = some s' → binLengths s' = binLengths s := by
  induction stale with
  | nil =>
    intro s s' h
    obtain rfl := Option.some_inj.mp h
    rfl
  | cons a rest ih =>
    intro s s' h
    unfold TextureCache.Cleanup at h
    rw [List.foldl_cons] at h
    simp only [Option.bind_eq_bind, Option.some_bind] at h
    cases hda : s.DestroyLater a with
    | none =>
      rw [hda] at h
      rw [cleanup_foldl_none rest] at h
      exact absurd h (by simp)
    | some s1 =>
      rw [hda] at h
      exact (ih s1 s' h).trans (destroyLater_binLengths s s1 a hda)

/-- C9: per-slot bookkeeping grows lazily and monotonically — after
`SetCurrentIndex i` every per-slot container covers slot `i` (length at
least `i+1`), `SetCurrentIndex` never shrinks any container, and
`SetInFlight`, `DestroyLater`, `Clear` and `Cleanup` leave every container
length unchanged. -/
theorem per_slot_growth (s s' : TextureCache) (i : Nat) (t : TexId) (stale : List TexId) :
    coversSlot (s.SetCurrentIndex i) i ∧
    (s.inFlightTextures.length ≤ (s.SetCurrentIndex i).inFlightTextures.length ∧
     s.trashedImageViews.length ≤ (s.SetCurrentIndex i).trashedImageViews.length ∧
     s.trashedImages.length ≤ (s.SetCurrentIndex i).trashedImages.length ∧
     s.trashedMem.length ≤ (s.SetCurrentIndex i).trashedMem.length ∧
     s.trashedBuffers.length ≤ (s.SetCurrentIndex i).trashedBuffers.length) ∧
    (s.SetInFlight t = some s' → binLengths s' = binLengths s) ∧
    (s.DestroyLater t = some s' → binLengths s' = binLengths s) ∧
    binLengths s.Clear = binLengths s ∧
    (s.Cleanup stale = some s' → binLengths s' = binLengths s) := by
  refine ⟨setCurrentIndex_covers s i, ⟨?_, ?_, ?_, ?_, ?_⟩,
    setInFlight_binLengths s s' t, destroyLater_binLengths s s' t,
    by simp [binLengths, TextureCache.Clear], cleanup_binLengths stale s s'⟩ <;>
  · show _ ≤ (emptyTrash _ i).length
    rw [length_emptyTrash]
    omega

/-- Witness for C9 at a concrete cache: slot change to 2, a successful
`DestroyLater`, a successful single-stale `Cleanup`, and `Clear`. -/
theorem per_slot_growth_witness :
    coversSlot (liveCache.SetCurrentIndex 2) 2 ∧
    binLengths liveCacheTrashed = binLengths liveCache ∧
    binLengths liveCache.Clear = binLengths liveCache :=
  ⟨(per_slot_growth liveCache liveCacheTrashed 2 0 [0]).1,
   (per_slot_growth liveCache liveCacheTrashed 2 0 [0]).2.2.2.1 (by decide),
   (per_slot_growth liveCache liveCacheTrashed 2 0 [0]).2.2.2.2.1⟩

/-! ### Alias-view clearing on slot change -/

/-- Pointwise characterization of the alias-view clearing pass: a texture
comes out with its `readOnlyImageView` nulled exactly when its id is in
the processed in-flight list, and untouched otherwise. -/
theorem clearReadOnlyViews_getD (ids : List TexId) :
    ∀ (heap : List Texture) (t : TexId), t < heap.length →
      (clearReadOnlyViews heap ids).getD t {} =
        (if t ∈ ids then { heap.getD t {} with readOnlyImageView := none }
         else heap.getD t {}) := by
  induction ids with
  | nil =>
    intro heap t ht
    simp [clearReadOnlyViews]
  | cons a rest ih =>
    intro heap t ht
    have hstep : clearReadOnlyViews heap (a :: rest) =
        clearReadOnlyViews (heap.set a { heap.getD a {} with readOnlyImageView := none })
          rest := rfl
    rw [hstep, ih _ t (by simpa using ht)]
    by_cases hta : t = a
    · subst hta
      rw [getD_set_self _ _ _ _ ht]
      by_cases htr : t ∈ rest
      · simp [htr]
      · simp [htr]
    · rw [getD_set_ne _ _ _ _ _ (fun he => hta he.symm)]
      by_cases htr : t ∈ rest
      · simp [htr, List.mem_cons, hta]
      · simp [htr, List.mem_cons, hta]

/-- C7 counterexample: in `cexCache`, texture 0 is in-flight in no slot
other than the new current slot (slot 0, also the slot being vacated), so
by the claim its alias view must survive `SetCurrentIndex 0` — yet the
code clears the alias view of every texture in the vacated slot's
in-flight set, including this one. -/
theorem setCurrentIndex_alias_cex :
    cexCache.currentIndex = 0 ∧
    cexCache.IsInFlight 0 = false ∧
    0 ∈ cexCache.inFlightTextures.getD cexCache.currentIndex [] ∧
    (cexCache.textures.getD 0 {}).readOnlyImageView = some 12 ∧
    ((cexCache.SetCurrentIndex 0).textures.getD 0 {}).readOnlyImageView = none := by
  decide

/-- C7 (amended): on every `SetCurrentIndex` call, as its first effect the
read-only alias view is cleared exactly for the objects in the in-flight
set of the slot being vacated — regardless of their membership in other
slots — and `GetReadOnlyImageView` for those objects falls back to the
primary view; objects outside that set are untouched. -/
theorem setCurrentIndex_clears_vacated_aliases (s : TextureCache) (t : TexId) (i : Nat)
    (hcur : s.currentIndex < s.inFlightTextures.length) (ht : t < s.textures.length) :
    (t ∈ s.inFlightTextures.getD s.currentIndex [] →
      ((s.SetCurrentIndex i).textures.getD t {}).readOnlyImageView = none ∧
      ((s.SetCurrentIndex i).textures.getD t {}).GetReadOnlyImageView =
        ((s.SetCurrentIndex i).textures.getD t {}).imageView) ∧
    (t ∉ s.inFlightTextures.getD s.currentIndex [] →
      (s.SetCurrentIndex i).textures.getD t {} = s.textures.getD t {}) := by
  have htex : (s.SetCurrentIndex i).textures =
      clearReadOnlyViews s.textures (s.inFlightTextures.getD s.currentIndex []) := by
    simp [TextureCache.SetCurrentIndex, hcur]
  rw [htex, clearReadOnlyViews_getD _ _ _ ht]
  constructor
  · intro hmem
    rw [if_pos hmem]
    exact ⟨rfl, rfl⟩
  · intro hmem
    rw [if_neg hmem]

/-- Witness for the amended C7 at a concrete cache: texture 0 sits in the
vacated slot 0's set, so moving to slot 1 clears its alias view. -/
theorem setCurrentIndex_clears_vacated_aliases_witness :
    (0 ∈ cexCache.inFlightTextures.getD cexCache.currentIndex [] →
      ((cexCache.SetCurrentIndex 1).textures.getD 0 {}).readOnlyImageView = none ∧
      ((cexCache.SetCurrentIndex 1).textures.getD 0 {}).GetReadOnlyImageView =
        ((cexCache.SetCurrentIndex 1).textures.getD 0 {}).imageView) ∧
    (0 ∉ cexCache.inFlightTextures.getD cexCache.currentIndex [] →
      (cexCache.SetCurrentIndex 1).textures.getD 0 {} = cexCache.textures.getD 0 {}) :=
  setCurrentIndex_clears_vacated_aliases cexCache 0 1 (by decide) (by decide)

/-! ### Trash-ring ordering -/

theorem add_mod_ne (R k j : Nat) (hk : k < R) (hj0 : 0 < j) (hjR : j < R) :
    (k + j) % R ≠ k := by
  intro he
  rcases Nat.lt_or_ge (k + j) R with h | h
  · rw [Nat.mod_eq_of_lt h] at he
    omega
  · have h2 : k + j - R < R := by omega
    rw [Nat.mod_eq_sub_mod h, Nat.mod_eq_of_lt h2] at he
    omega

/-- `cycleSteps` unfolds on the right as well. -/
theorem cycleSteps_succ_right (R : Nat) :
    ∀ (n : Nat) (s : TextureCache),
      cycleSteps R (n + 1) s = cycleStep R (cycleSteps R n s) := by
  intro n
  induction n with
  | zero => intro s; rfl
  | succ m ih => intro s; exact ih (cycleStep R s)

/-- The observable effect of a successful `DestroyLater` on the image
trash: the image handle is appended to the current slot's bin, and the
current slot does not move. -/
theorem destroyLater_some_spec (s s' : TextureCache) (t : TexId) (h₀ : Nat)
    (him : (s.textures.getD t {}).image = some h₀)
    (h : s.DestroyLater t = some s') :
    s'.currentIndex = s.currentIndex ∧
    s'.trashedImages =
      s.trashedImages.set s.currentIndex
        (s.trashedImages.getD s.currentIndex [] ++ [h₀]) := by
  have hne : (s.textures.getD t {}).image ≠ none := by
    intro hc
    rw [hc] at him
    exact Option.noConfusion him
  simp only [TextureCache.DestroyLater] at h
  rw [if_neg hne] at h
  split at h
  · obtain rfl := Option.some_inj.mp h
    refine ⟨rfl, ?_⟩
    rw [him]
    rfl
  · exact absurd h (by simp)

/-- While a cycling renderer has not yet returned to slot `k`, slot `k`'s
image trash bin is untouched: after `n` more cycling steps from a state
whose slot is `(k + m) % R`, the slot is `(k + m + n) % R` and bin `k` is
unchanged, provided `m + n < R`. -/
theorem cycle_preserves (R k : Nat) (hkR : k < R) :
    ∀ (n m : Nat) (s : TextureCache), s.currentIndex = (k + m) % R → m + n < R →
      ((cycleSteps R n s).currentIndex = (k + m + n) % R ∧
       (cycleSteps R n s).trashedImages.getD k [] = s.trashedImages.getD k []) := by
  intro n
  induction n with
  | zero =>
    intro m s hc hm
    exact ⟨by simpa using hc, rfl⟩
  | succ p ih =>
    intro m s hc hm
    have hstep : cycleSteps R (p + 1) s = cycleSteps R p (cycleStep R s) := rfl
    have hidx : (cycleStep R s).currentIndex = (k + (m + 1)) % R := by
      show (s.currentIndex + 1) % R = (k + (m + 1)) % R
      rw [hc, Nat.mod_add_mod, Nat.add_assoc]
    have hbin : (cycleStep R s).trashedImages.getD k [] = s.trashedImages.getD k [] := by
      show (emptyTrash s.trashedImages ((s.currentIndex + 1) % R)).getD k [] = _
      apply getD_emptyTrash_ne
      rw [hc, Nat.mod_add_mod]
      have hne := add_mod_ne R k (m + 1) hkR (by omega) (by omega)
      intro he
      exact hne he.symm
    obtain ⟨ih1, ih2⟩ := ih (m + 1) (cycleStep R s) hidx (by omega)
    rw [hstep]
    refine ⟨?_, ih2.trans hbin⟩
    rw [ih1]
    congr 1
    omega

/-- C1: a sub-resource trashed by `DestroyLater` while slot `k` is current
lands in slot `k`'s trash bin, survives every cycling `SetCurrentIndex`
that has not yet brought slot `k` back (any `n` with `0 < n < R` steps,
whose slot is then not `k`), and is physically released exactly when slot
`k` next becomes current, at the `R`-th cycling step — i.e. only after at
least `R − 1` intervening slot changes. -/
theorem trash_ring_gated (R k h₀ n : Nat) (s s' : TextureCache) (t : TexId)
    (hkR : k < R) (hcur : s.currentIndex = k)
    (him : (s.textures.getD t {}).image = some h₀)
    (hdl : s.DestroyLater t = some s')
    (hn0 : 0 < n) (hnR : n < R) :
    h₀ ∈ s'.trashedImages.getD k [] ∧
    (cycleSteps R n s').currentIndex ≠ k ∧
    h₀ ∈ (cycleSteps R n s').trashedImages.getD k [] ∧
    (cycleSteps R R s').currentIndex = k ∧
    (cycleSteps R R s').trashedImages.getD k [] = [] := by
  obtain ⟨hci, hbin⟩ := destroyLater_some_spec s s' t h₀ him hdl
  have hk_len : k < s.trashedImages.length := by
    have hcov := (destroyLater_isSome_iff s t
      (by intro hc; rw [hc] at him; exact Option.noConfusion him)).mp (by rw [hdl]; rfl)
    rw [hcur] at hcov
    exact hcov.1
  have hcur' : s'.currentIndex = k := hci.trans hcur
  have hmem : h₀ ∈ s'.trashedImages.getD k [] := by
    rw [hbin, hcur, getD_set_self _ _ _ _ hk_len]
    simp
  have hstart : s'.currentIndex = (k + 0) % R := by
    rw [hcur', Nat.add_zero, Nat.mod_eq_of_lt hkR]
  obtain ⟨hidx_n, hbin_n⟩ := cycle_preserves R k hkR n 0 s' hstart (by omega)
  obtain ⟨hidx_q, hbin_q⟩ := cycle_preserves R k hkR (R - 1) 0 s' hstart (by omega)
  have hlast : cycleSteps R R s' = cycleStep R (cycleSteps R (R - 1) s') := by
    nth_rewrite 2 [show R = (R - 1) + 1 from by omega]
    exact cycleSteps_succ_right R (R - 1) s'
  have hidx_last : ((cycleSteps R (R - 1) s').currentIndex + 1) % R = k := by
    rw [hidx_q, Nat.mod_add_mod, show k + 0 + (R - 1) + 1 = k + R from by omega,
      Nat.add_mod_right, Nat.mod_eq_of_lt hkR]
  refine ⟨hmem, ?_, hbin_n ▸ hmem, ?_, ?_⟩
  · rw [hidx_n]
    have := add_mod_ne R k n hkR hn0 hnR
    rw [show k + 0 + n = k + n from by omega]
    exact this
  · rw [hlast]
    show ((cycleSteps R (R - 1) s').currentIndex + 1) % R = k
    exact hidx_last
  · rw [hlast]
    show (emptyTrash (cycleSteps R (R - 1) s').trashedImages
      (((cycleSteps R (R - 1) s').currentIndex + 1) % R)).getD k [] = []
    rw [hidx_last]
    exact getD_emptyTrash_self _ _

/-- Witness for C1: ring depth 2, trash in slot 0, one step away (slot 1,
bin intact), back at slot 0 after two steps (bin emptied). -/
theorem trash_ring_gated_witness :
    10 ∈ liveCacheTrashed.trashedImages.getD 0 [] ∧
    (cycleSteps 2 1 liveCacheTrashed).currentIndex ≠ 0 ∧
    10 ∈ (cycleSteps 2 1 liveCacheTrashed).trashedImages.getD 0 [] ∧
    (cycleSteps 2 2 liveCacheTrashed).currentIndex = 0 ∧
    (cycleSteps 2 2 liveCacheTrashed).trashedImages.getD 0 [] = [] :=
  trash_ring_gated 2 0 10 1 liveCache liveCacheTrashed 0 (by decide) (by decide)
    (by decide) (by decide) (by decide) (by decide)

/-! ### Upload reallocation policy -/

/-- `DestroyLater` never changes the number of heap texture slots. -/
theorem destroyLater_textures_length (s s' : TextureCache) (t : TexId)
    (h : s.DestroyLater t = some s') : s'.textures.length = s.textures.length := by
  by_cases himg : (s.textures.getD t {}).image = none
  · simp only [TextureCache.DestroyLater, himg, if_pos] at h
    obtain rfl := Option.some_inj.mp h
    rfl
  · simp only [TextureCache.DestroyLater, himg] at h
    rw [if_neg (by simp)] at h
    split at h
    · obtain rfl := Option.some_inj.mp h
      simp
    · exact absurd h (by simp)

/-- C2: `upload` with an existing image of unchanged extent and format
reuses it — the state (image handle, trash bins) is untouched; when no
image exists or extent/format differ, the new image has
`mipmapRequested ? log2(max(width,height))+1 : 1` levels and a fresh
handle, and an old image handle lands in the current slot's trash. -/
theorem uploadToGPU_realloc_policy (s s' : TextureCache) (t : TexId)
    (wd hg fmt fi fv fa h₀ : Nat) (mip : Bool) :
    (((s.textures.getD t {}).image ≠ none ∧ (s.textures.getD t {}).width = wd ∧
       (s.textures.getD t {}).height = hg ∧ (s.textures.getD t {}).format = fmt) →
      s.UploadToGPU t wd hg fmt mip fi fv fa = some s) ∧
    (¬((s.textures.getD t {}).image ≠ none ∧ (s.textures.getD t {}).width = wd ∧
        (s.textures.getD t {}).height = hg ∧ (s.textures.getD t {}).format = fmt) →
      t < s.textures.length →
      s.UploadToGPU t wd hg fmt mip fi fv fa = some s' →
      ((s'.textures.getD t {}).image = some fi ∧
       (s'.textures.getD t {}).mipmapLevels =
         (if mip then Nat.log2 (max wd hg) + 1 else 1) ∧
       ((s.textures.getD t {}).image = some h₀ →
         h₀ ∈ s'.trashedImages.getD s.currentIndex []))) := by
  constructor
  · intro hc
    simp only [TextureCache.UploadToGPU]
    rw [if_pos hc]
  · intro hc ht hup
    simp only [TextureCache.UploadToGPU] at hup
    rw [if_neg hc] at hup
    cases hmap : s.DestroyLater t with
    | none =>
      rw [hmap] at hup
      exact absurd hup (by simp)
    | some s1 =>
      rw [hmap] at hup
      simp only [Option.map_some'] at hup
      obtain rfl := Option.some_inj.mp hup.symm
      have ht1 : t < s1.textures.length := by
        rw [destroyLater_textures_length s s1 t hmap]
        exact ht
      refine ⟨?_, ?_, ?_⟩
      · show ((s1.textures.set t
            { format := fmt, width := wd, height := hg,
              mipmapLevels := if mip then Nat.log2 (max wd hg) + 1 else 1,
              image := some fi, imageView := some fv,
              allocation := some fa }).getD t {}).image = some fi
        rw [getD_set_self _ _ _ _ ht1]
      · show ((s1.textures.set t
            { format := fmt, width := wd, height := hg,
              mipmapLevels := if mip then Nat.log2 (max wd hg) + 1 else 1,
              image := some fi, imageView := some fv,
              allocation := some fa }).getD t {}).mipmapLevels =
          (if mip then Nat.log2 (max wd hg) + 1 else 1)
        rw [getD_set_self _ _ _ _ ht1]
      · intro him
        obtain ⟨hci, hbin⟩ := destroyLater_some_spec s s1 t h₀ him hmap
        have hcov := (destroyLater_isSome_iff s t
          (by intro hce; rw [hce] at him; exact Option.noConfusion him)).mp
          (by rw [hmap]; rfl)
        show h₀ ∈ s1.trashedImages.getD s.currentIndex []
        rw [hbin, getD_set_self _ _ _ _ hcov.1]
        simp

/-- Witness for C2: reuse on unchanged 8×8 extent; a 16×8 re-upload with
mipmaps allocates fresh handles and trashes the old image handle. -/
theorem uploadToGPU_realloc_policy_witness :
    liveCache.UploadToGPU 0 8 8 1 false 20 21 22 = some liveCache ∧
    (upDiff.textures.getD 0 {}).image = some 20 ∧
    (upDiff.textures.getD 0 {}).mipmapLevels = (if false then Nat.log2 (max 16 8) + 1 else 1) ∧
    10 ∈ upDiff.trashedImages.getD liveCache.currentIndex [] := by
  have h1 := (uploadToGPU_realloc_policy liveCache liveCache 0 8 8 1 20 21 22 10 false).1
    (by decide)
  have h2 := (uploadToGPU_realloc_policy liveCache upDiff 0 16 8 1 20 21 22 10 false).2
    (by decide) (by decide) (by decide)
  exact ⟨h1, h2.1, h2.2.1, h2.2.2 (by decide)⟩

end MorpheusCast
